import Mathlib

set_option autoImplicit false

/-!
# Verification of the `parameter-validator` library

This file is a shallow embedding of `src/ParameterValidator.js`: the
`ParameterValidator` class with its `validate` / `validateAsync` operations and
its private helpers, translated function by function.  JavaScript exceptions
are modelled with `Except`, in-place mutation of the extracted-parameters
object with explicit state passing over association lists, and promises with
an explicit `Deferred` result type.

The modelled value universe `JSValue` covers the primitive values and plain
objects that the library's data paths manipulate (`undefined`, `null`,
booleans, integral numbers, `NaN`, strings, and plain objects as ordered
association lists).  Function values appear in the places where the source
calls them — validation predicates — as Lean functions `JSValue → JSValue`
carried inside rule descriptors.
-/

/-- A JavaScript value, restricted to the shapes the library manipulates.
Numbers are modelled as integers plus an explicit `NaN`; objects are ordered
association lists from property name to value (JS object insertion order). -/
inductive JSValue where
  | undefined
  | null
  | bool (b : Bool)
  | num (n : Int)
  | nan
  | str (s : String)
  | obj (fields : List (String × JSValue))

/-- JS truthiness: `undefined`, `null`, `false`, `0`, `NaN` and `""` are falsy,
everything else is truthy. -/
def jsTruthy : JSValue → Bool
  | .undefined => false
  | .null => false
  | .bool b => b
  | .num n => !(n == 0)
  | .nan => false
  | .str s => !s.data.isEmpty
  | .obj _ => true

/-- JS default string coercion, as used by template-literal interpolation. -/
def jsToString : JSValue → String
  | .undefined => "undefined"
  | .null => "null"
  | .bool true => "true"
  | .bool false => "false"
  | .num n => toString n
  | .nan => "NaN"
  | .str s => s
  | .obj _ => "[object Object]"

/-- The JS `typeof` operator on the modelled value universe. -/
def jsTypeof : JSValue → String
  | .undefined => "undefined"
  | .null => "object"
  | .bool _ => "boolean"
  | .num _ => "number"
  | .nan => "number"
  | .str _ => "string"
  | .obj _ => "object"

/-- Mirrors the JS strict comparison `x === true`. -/
def JSValue.isTrue : JSValue → Bool
  | .bool true => true
  | _ => false

/-- Property read on an object association list: value of the first (and, for
lists built by property assignment, only) entry with the given name. -/
def objLookup : List (String × JSValue) → String → Option JSValue
  | [], _ => none
  | (k, v) :: rest, name => if k = name then some v else objLookup rest name

/-- JS property assignment `o[k] = v` on the association-list model: an
existing key keeps its position and gets the new value, a new key is appended
(JS own-property insertion order). -/
def objInsert : List (String × JSValue) → String → JSValue → List (String × JSValue)
  | [], k, v => [(k, v)]
  | (k', v') :: rest, k, v =>
      if k' = k then (k', v) :: rest else (k', v') :: objInsert rest k v

/-- JS property read `base[name]`.  On an object it is the stored value or
`undefined`; on a string it exposes `length` and canonical character indices;
on the remaining primitives every read yields `undefined` (inherited method
properties are function values, which lie outside the modelled data universe).
`validate` rejects falsy `paramsProvided` before any read, so reads on
`null`/`undefined` (a JS `TypeError`) are never reached. -/
def getProp : JSValue → String → JSValue
  | .obj fields, name => (objLookup fields name).getD .undefined
  | .str s, name =>
      if name = "length" then .num s.length
      else
        match name.toNat? with
        | some i =>
            if name = toString i then
              match s.data.get? i with
              | some c => .str ⟨[c]⟩
              | none => .undefined
            else .undefined
        | none => .undefined
  | _, _ => .undefined

/-- JS `s.slice(0, -n)` at character level: drop the last `n` characters. -/
def jsSlice0Neg (s : String) (n : Nat) : String := ⟨s.data.take (s.data.length - n)⟩

/-- Error classes acceptable as `options.errorClass`: the library's
`ParameterValidationError`, the built-in `Error` itself, or some other `Error`
subclass (identified by name). -/
inductive ErrClass where
  | parameterValidationError
  | errorBase
  | subclass (name : String)

/-- An error value raised by the library: either an instance of the validation
error class chosen for the call (`new ValidationErrorSubclass(msg)`), or a
plain `new Error(msg)` thrown at the usage-error sites. -/
inductive JSError where
  | validationError (cls : ErrClass) (msg : String)
  | plainError (msg : String)

/-- The `options.errorClass` argument: absent, a valid `Error`(-subclass)
constructor, or some value that is not one (the modelled non-function values
never pass the `errorClass === Error || errorClass.prototype instanceof Error`
test). -/
inductive ErrorClassArg where
  | undefined
  | provided (c : ErrClass)
  | invalid (v : JSValue)

/-- The `options` object of `validate`, restricted to its recognized keys.
`addPrefix` is kept as a raw `JSValue` because the source inspects its
truthiness and its `typeof`. -/
structure Options where
  addPrefix : JSValue := .undefined
  errorClass : ErrorClassArg := .undefined

/-- A value stored in a rule-descriptor object: either a callable validation
predicate (a JS function, arbitrary return value) or a non-callable value. -/
inductive RuleVal where
  | func (f : JSValue → JSValue)
  | notFunc (v : JSValue)

/-- One entry of the `paramRequirements` array, tagged by the JS shape that
`validate`'s dispatch inspects:
* `arr` — a JS array (`Array.isArray`); its elements are used as property
  keys after string coercion;
* `objRule` — a non-array value with `typeof === 'object'` (a plain object,
  with its `for..in` enumeration as an ordered entry list; `null` corresponds
  to the empty entry list);
* `strRule` — a string;
* `other` — any other value (numbers, booleans, `undefined`), which the
  dispatch skips. -/
inductive Rule where
  | arr (elems : List JSValue)
  | objRule (entries : List (String × RuleVal))
  | strRule (s : String)
  | other (v : JSValue)

/-- The `paramRequirements` argument: an actual JS array of rules, or a value
failing `Array.isArray`. -/
inductive ParamRequirementsArg where
  | array (rules : List Rule)
  | notArray (v : JSValue)

/-- Result of a settled promise: fulfilled with a value or rejected with an
error. -/
inductive Deferred (α : Type) where
  | fulfilled (value : α)
  | rejected (error : JSError)

/-- `Promise.resolve().then(f)`: a normal return fulfills the promise, a
thrown error rejects it; nothing is thrown synchronously. -/
def promiseResolveThen {α : Type} (f : Unit → Except JSError α) : Deferred α :=
  match f () with
  | .ok v => .fulfilled v
  | .error e => .rejected e

/-- The `ParameterValidator` class: its only instance state is the optional
custom default-validation function configured at construction. -/
structure ParameterValidator where
  _defaultValidation : Option (JSValue → JSValue) := none

/-- `isDefined(value) { return value !== undefined; }` -/
def isDefined (value : JSValue) : JSValue :=
  match value with
  | .undefined => .bool false
  | _ => .bool true

/-- The `defaultValidation` getter: the configured function, or `isDefined`. -/
def ParameterValidator.defaultValidation (p : ParameterValidator) : JSValue → JSValue :=
  match p._defaultValidation with
  | some f => f
  | none => isDefined

/-- `_assignProperties(targetObject, propertiesToAdd, prefix)`: assign each
entry of `propertiesToAdd` onto the target under its prefixed name. -/
def assignProperties (targetObject propertiesToAdd : List (String × JSValue))
    (pfx : String) : List (String × JSValue) :=
  propertiesToAdd.foldl (fun t kv => objInsert t (pfx ++ kv.1) kv.2) targetObject

/-- `_getExtractedParamsObject(extractedParams)`: `null`/`undefined` give a
fresh empty object, an existing object is used as is, anything else throws a
plain `Error`. -/
def getExtractedParamsObject : JSValue → Except JSError (List (String × JSValue))
  | .undefined => .ok []
  | .null => .ok []
  | .obj fields => .ok fields
  | v =>
      .error (.plainError ("Invalid value of '" ++ jsToString v ++
        "' was provided for the extractedParams parameter."))

/-- `_getValidationErrorSubclass(options)`: the default
`ParameterValidationError` when no `errorClass` option is given, the provided
class when it is `Error` or an `Error` subclass, otherwise a thrown plain
`Error`. -/
def getValidationErrorSubclass (options : Options) : Except JSError ErrClass :=
  match options.errorClass with
  | .undefined => .ok .parameterValidationError
  | .provided c => .ok c
  | .invalid v =>
      .error (.plainError ("The errorClass provided was of type " ++ jsTypeof v ++
        " and was not an Error subclass."))

/-- `_performLogicalOrParamValidation(paramsProvided, paramNames)`: extract
every name whose value satisfies the default validation (truthiness of its
result); if none does, produce the single group error built by appending
`'name', ` per name and slicing off the trailing `", "`.  Returns
`(errors, params)`. -/
def ParameterValidator.performLogicalOrParamValidation (p : ParameterValidator)
    (paramsProvided : JSValue) (paramNames : List JSValue) :
    List String × List (String × JSValue) :=
  let isValid := p.defaultValidation
  let extractedParams := paramNames.foldl (fun acc paramName =>
      let key := jsToString paramName
      if jsTruthy (isValid (getProp paramsProvided key)) then
        objInsert acc key (getProp paramsProvided key)
      else acc) []
  let errors :=
    if extractedParams.isEmpty then
      [jsSlice0Neg (paramNames.foldl (fun m paramName =>
          m ++ "'" ++ jsToString paramName ++ "', ")
          "One of the following parameters must be included: ") 2 ++ "."]
    else []
  (errors, extractedParams)

/-- `_executeValidationFunction(paramsProvided, paramName, validationFunction)`:
a non-callable validation function throws a plain `Error`; a callable one
extracts the parameter when it returns exactly `true` and otherwise produces
the per-parameter error message.  Returns `(errors, params)`. -/
def executeValidationFunction (paramsProvided : JSValue) (paramName : String)
    (validationFunction : RuleVal) :
    Except JSError (List String × List (String × JSValue)) :=
  match validationFunction with
  | .notFunc _ =>
      .error (.plainError ("A paramRequirement value provided for the parameter " ++
        paramName ++ " is not a function."))
  | .func f =>
      if (f (getProp paramsProvided paramName)).isTrue then
        .ok ([], [(paramName, getProp paramsProvided paramName)])
      else
        .ok (["Invalid value of '" ++ jsToString (getProp paramsProvided paramName) ++
          "' was provided for parameter '" ++ paramName ++ "'."], [])

/-- The inner `for (let paramName in paramRequirement)` loop of `validate`'s
object-rule branch, over the object's enumerated entries: each entry's result
is merged into the state (`_assignProperties`, then pushing the errors). -/
def runEntries (paramsProvided : JSValue) (pfx : String) :
    List (String × RuleVal) → List String × List (String × JSValue) →
    Except JSError (List String × List (String × JSValue))
  | [], st => .ok st
  | (paramName, vf) :: rest, st =>
      match executeValidationFunction paramsProvided paramName vf with
      | .error e => .error e
      | .ok res => runEntries paramsProvided pfx rest
          (st.1 ++ res.1, assignProperties st.2 res.2 pfx)

/-- One iteration of `validate`'s main loop, dispatching on the rule shape:
non-empty arrays go to the logical-OR branch, `typeof 'object'` values to the
per-entry loop (an empty array enumerates nothing there), non-empty strings to
the default validation, and anything else is skipped. -/
def processRule (p : ParameterValidator) (paramsProvided : JSValue) (pfx : String)
    (st : List String × List (String × JSValue)) :
    Rule → Except JSError (List String × List (String × JSValue))
  | .arr elems =>
      if elems.isEmpty then .ok st
      else
        let vr := p.performLogicalOrParamValidation paramsProvided elems
        .ok (st.1 ++ vr.1, assignProperties st.2 vr.2 pfx)
  | .objRule entries => runEntries paramsProvided pfx entries st
  | .strRule s =>
      if s = "" then .ok st
      else
        match executeValidationFunction paramsProvided s
            (.func (p.defaultValidation)) with
        | .error e => .error e
        | .ok res => .ok (st.1 ++ res.1, assignProperties st.2 res.2 pfx)
  | .other _ => .ok st

/-- `validate`'s main loop over `paramRequirements`, threading the running
error list and the extracted-parameters object. -/
def runRules (p : ParameterValidator) (paramsProvided : JSValue) (pfx : String) :
    List Rule → List String × List (String × JSValue) →
    Except JSError (List String × List (String × JSValue))
  | [], st => .ok st
  | r :: rest, st =>
      match processRule p paramsProvided pfx st r with
      | .error e => .error e
      | .ok st' => runRules p paramsProvided pfx rest st'

/-- `validate(paramsProvided, paramRequirements, extractedParams, options)`,
translated step by step from the source: resolve the output object and the
error class, reject a falsy `paramsProvided` (with the *validation* error
class), reject a non-array rule list and a truthy non-string `addPrefix`
(with plain `Error`s), run the rules, and either throw the aggregate error
(every message suffixed with a space, then the final space sliced off) or
return the extracted parameters. -/
def ParameterValidator.validate (p : ParameterValidator) (paramsProvided : JSValue)
    (paramRequirements : ParamRequirementsArg) (extractedParams : JSValue := .undefined)
    (options : Options := {}) : Except JSError (List (String × JSValue)) :=
  match getExtractedParamsObject extractedParams with
  | .error e => .error e
  | .ok extracted0 =>
    match getValidationErrorSubclass options with
    | .error e => .error e
    | .ok cls =>
      if jsTruthy paramsProvided = false then
        .error (.validationError cls "A params object is required.")
      else
        match paramRequirements with
        | .notArray _ => .error (.plainError "paramRequirements must be an array.")
        | .array rules =>
          match (if jsTruthy options.addPrefix then options.addPrefix else .str "") with
          | .str pfx =>
              (match runRules p paramsProvided pfx rules ([], extracted0) with
              | .error e => .error e
              | .ok (errors, extracted) =>
                  if errors.isEmpty then .ok extracted
                  else
                    .error (.validationError cls
                      (jsSlice0Neg (errors.foldl (fun m e => m ++ e ++ " ") "") 1)))
          | _ => .error (.plainError "addPrefix option must be a string if provided.")

/-- `validateAsync(...args)`: `Promise.resolve().then(() => this.validate(...args))`. -/
def ParameterValidator.validateAsync (p : ParameterValidator) (paramsProvided : JSValue)
    (paramRequirements : ParamRequirementsArg) (extractedParams : JSValue := .undefined)
    (options : Options := {}) : Deferred (List (String × JSValue)) :=
  promiseResolveThen (fun _ =>
    p.validate paramsProvided paramRequirements extractedParams options)

/-- The module-level singleton instance backing the standalone exports. -/
def parameterValidator : ParameterValidator := {}

/-- The standalone exported `validate`, bound to the singleton instance. -/
def validate (paramsProvided : JSValue) (paramRequirements : ParamRequirementsArg)
    (extractedParams : JSValue := .undefined) (options : Options := {}) :
    Except JSError (List (String × JSValue)) :=
  parameterValidator.validate paramsProvided paramRequirements extractedParams options

/-- The standalone exported `validateAsync`, bound to the singleton instance. -/
def validateAsync (paramsProvided : JSValue) (paramRequirements : ParamRequirementsArg)
    (extractedParams : JSValue := .undefined) (options : Options := {}) :
    Deferred (List (String × JSValue)) :=
  parameterValidator.validateAsync paramsProvided paramRequirements extractedParams options

/-! ## Derived notions used to state the claims -/

/-- The parameter names a rule descriptor covers, as property keys: all
(string-coerced) members of an array rule, the enumerated keys of an object
rule, a non-empty string itself; skipped shapes cover nothing. -/
def ruleValidNames : Rule → List String
  | .arr elems => elems.map jsToString
  | .objRule entries => entries.map (fun ent => ent.1)
  | .strRule s => if s = "" then [] else [s]
  | .other _ => []

/-- All parameter names covered by a rule list, in rule order. -/
def validNames (rules : List Rule) : List String :=
  (rules.map ruleValidNames).flatten

/-- Every parameter named by the rule satisfies its applicable check: the
default validation's truthiness for each member of an array rule, a strict
`true` return of the entry's own (callable) predicate for an object rule, and
a strict `true` return of the default validation for a string rule. -/
def RuleAllValid (p : ParameterValidator) (pv : JSValue) : Rule → Prop
  | .arr elems => ∀ e ∈ elems,
      jsTruthy (p.defaultValidation (getProp pv (jsToString e))) = true
  | .objRule entries => ∀ ent ∈ entries,
      ∃ f, ent.2 = RuleVal.func f ∧ (f (getProp pv ent.1)).isTrue = true
  | .strRule s => s ≠ "" → (p.defaultValidation (getProp pv s)).isTrue = true
  | .other _ => True

/-- The rule raises no usage error: every value in an object rule is callable. -/
def RuleWellFormed : Rule → Prop
  | .objRule entries => ∀ ent ∈ entries, ∃ f, ent.2 = RuleVal.func f
  | _ => True

/-- The validation-failure messages a single (well-formed) rule contributes,
in order, read off the source helpers. -/
def ruleErrors (p : ParameterValidator) (pv : JSValue) : Rule → List String
  | .arr elems =>
      if elems.isEmpty then []
      else (p.performLogicalOrParamValidation pv elems).1
  | .objRule entries =>
      (entries.map (fun ent =>
        match executeValidationFunction pv ent.1 ent.2 with
        | .ok r => r.1
        | .error _ => [])).flatten
  | .strRule s =>
      if s = "" then []
      else
        match executeValidationFunction pv s (.func p.defaultValidation) with
        | .ok r => r.1
        | .error _ => []
  | .other _ => []

/-- All validation-failure messages of a rule list, in rule order. -/
def allErrors (p : ParameterValidator) (pv : JSValue) (rules : List Rule) : List String :=
  (rules.map (ruleErrors p pv)).flatten

/-- Joining strings with a single space separator and no trailing separator,
written the way the specification describes the aggregate message. -/
def spaceJoinedSpec : List String → String
  | [] => ""
  | [e] => e
  | e :: rest => e ++ " " ++ spaceJoinedSpec rest

/-- Comma-separated single-quoted name list, written the way the
specification describes the logical-OR group message. -/
def quotedCommaJoinSpec : List String → String
  | [] => ""
  | [n] => "'" ++ n ++ "'"
  | n :: rest => "'" ++ n ++ "', " ++ quotedCommaJoinSpec rest

/-- Drop the first `n` characters of a key (used to invert prefixing). -/
def strDropPfx (n : Nat) (k : String) : String := ⟨k.data.drop n⟩

/-! ## Association-list lemmas -/

theorem strDropPfx_append (s t : String) : strDropPfx s.length (s ++ t) = t := by
  cases s with
  | mk ds =>
    cases t with
    | mk dt =>
      show String.mk (List.drop ds.length (ds ++ dt)) = String.mk dt
      rw [List.drop_left]

theorem objLookup_objInsert (m : List (String × JSValue)) (k : String) (v : JSValue)
    (k' : String) :
    objLookup (objInsert m k v) k' = if k = k' then some v else objLookup m k' := by
  induction m with
  | nil => simp [objInsert, objLookup]
  | cons hd tl ih =>
    obtain ⟨k₀, v₀⟩ := hd
    by_cases h0 : k₀ = k
    · subst h0
      by_cases h1 : k₀ = k'
      · subst h1; simp [objInsert, objLookup]
      · have h1' : ¬(k' = k₀) := fun h => h1 h.symm
        simp [objInsert, objLookup, h1, h1']
    · by_cases h1 : k₀ = k'
      · subst h1
        have hne : ¬(k = k₀) := fun h => h0 h.symm
        simp [objInsert, objLookup, h0, hne]
      · simp [objInsert, objLookup, h0, h1, ih]

theorem mem_objInsert (m : List (String × JSValue)) (k : String) (v : JSValue)
    (kv : String × JSValue) (h : kv ∈ objInsert m k v) : kv ∈ m ∨ kv = (k, v) := by
  induction m with
  | nil => simp [objInsert] at h; simp [h]
  | cons hd tl ih =>
    obtain ⟨k₀, v₀⟩ := hd
    by_cases h0 : k₀ = k
    · subst h0
      simp [objInsert] at h
      rcases h with h | h
      · right; simp [h]
      · left; simp [h]
    · simp [objInsert, h0] at h
      rcases h with h | h
      · left; simp [h]
      · rcases ih h with h' | h'
        · left; simp [h']
        · right; exact h'

theorem objLookup_eq_none_iff (m : List (String × JSValue)) (k : String) :
    objLookup m k = none ↔ k ∉ m.map (fun kv => kv.1) := by
  induction m with
  | nil => simp [objLookup]
  | cons hd tl ih =>
    obtain ⟨k₀, v₀⟩ := hd
    by_cases h0 : k₀ = k
    · subst h0; simp [objLookup]
    · have h0' : ¬(k = k₀) := fun h => h0 h.symm
      simp [objLookup, h0, ih, h0']

theorem condInsertFold_lookup {α : Type} (keyf : α → String) (cond : String → Bool)
    (g : String → JSValue) (keys : List α) (acc : List (String × JSValue)) (k : String) :
    objLookup (keys.foldl (fun a x =>
        if cond (keyf x) then objInsert a (keyf x) (g (keyf x)) else a) acc) k
      = if k ∈ keys.map keyf ∧ cond k = true then some (g k) else objLookup acc k := by
  induction keys generalizing acc with
  | nil => simp
  | cons x rest ih =>
    rw [List.foldl_cons, ih]
    by_cases hmem : k ∈ rest.map keyf ∧ cond k = true
    · rw [if_pos hmem, if_pos ⟨by simp [hmem.1], hmem.2⟩]
    · rw [if_neg hmem]
      by_cases hk : keyf x = k
      · subst hk
        by_cases hc : cond (keyf x) = true
        · rw [if_pos hc, objLookup_objInsert, if_pos rfl,
            if_pos ⟨by simp, hc⟩]
        · have : ¬(keyf x ∈ (x :: rest).map keyf ∧ cond (keyf x) = true) :=
            fun h => hc h.2
          rw [if_neg hc, if_neg this]
      · by_cases hc : cond (keyf x) = true
        · have : ¬(k ∈ (x :: rest).map keyf ∧ cond k = true) := by
            intro h
            have h1 := h.1
            rw [List.map_cons, List.mem_cons] at h1
            rcases h1 with h' | h'
            · exact hk h'.symm
            · exact hmem ⟨h', h.2⟩
          rw [if_pos hc, objLookup_objInsert, if_neg hk, if_neg this]
        · have : ¬(k ∈ (x :: rest).map keyf ∧ cond k = true) := by
            intro h
            have h1 := h.1
            rw [List.map_cons, List.mem_cons] at h1
            rcases h1 with h' | h'
            · subst h'; exact hc h.2
            · exact hmem ⟨h', h.2⟩
          rw [if_neg hc, if_neg this]

theorem condInsertFold_values {α : Type} (keyf : α → String) (cond : String → Bool)
    (g : String → JSValue) (keys : List α) (acc : List (String × JSValue))
    (h : ∀ kv ∈ acc, kv.2 = g kv.1) :
    ∀ kv ∈ keys.foldl (fun a x =>
        if cond (keyf x) then objInsert a (keyf x) (g (keyf x)) else a) acc,
      kv.2 = g kv.1 := by
  induction keys generalizing acc with
  | nil => simpa using h
  | cons x rest ih =>
    rw [List.foldl_cons]
    refine ih _ ?_
    by_cases hc : cond (keyf x) = true
    · rw [if_pos hc]
      intro kv hkv
      rcases mem_objInsert _ _ _ _ hkv with h' | h'
      · exact h kv h'
      · rw [h']
    · rw [if_neg hc]; exact h

theorem condInsertFold_of_allFalse {α : Type} (keyf : α → String) (cond : String → Bool)
    (g : String → JSValue) (keys : List α) (acc : List (String × JSValue))
    (h : ∀ x ∈ keys, cond (keyf x) = false) :
    keys.foldl (fun a x =>
        if cond (keyf x) then objInsert a (keyf x) (g (keyf x)) else a) acc
      = acc := by
  induction keys generalizing acc with
  | nil => rfl
  | cons x rest ih =>
    rw [List.foldl_cons, if_neg, ih]
    · intro x' h'; exact h x' (List.mem_cons_of_mem x h')
    · rw [h x (List.mem_cons_self x rest)]; exact fun h => nomatch h

theorem jsSlice0Neg_append (x y : String) : jsSlice0Neg (x ++ y) y.data.length = x := by
  cases x with
  | mk dx =>
    cases y with
    | mk dy =>
      show String.mk (List.take ((dx ++ dy).length - dy.length) (dx ++ dy)) = String.mk dx
      rw [List.length_append, Nat.add_sub_cancel, List.take_left]

theorem quotedCommaJoin_fold (elems : List JSValue) (hne : elems ≠ []) :
    ∀ acc : String,
    jsSlice0Neg (elems.foldl (fun m e => m ++ "'" ++ jsToString e ++ "', ") acc) 2
      = acc ++ quotedCommaJoinSpec (elems.map jsToString) := by
  induction elems with
  | nil => exact absurd rfl hne
  | cons e rest ih =>
    intro acc
    cases rest with
    | nil =>
      show jsSlice0Neg (acc ++ "'" ++ jsToString e ++ "', ") 2
        = acc ++ ("'" ++ jsToString e ++ "'")
      have h1 : acc ++ "'" ++ jsToString e ++ "', "
          = (acc ++ ("'" ++ jsToString e ++ "'")) ++ ", " := by
        rw [show (("', " : String) = "'" ++ ", ") from rfl]
        simp [String.append_assoc]
      rw [h1]
      exact jsSlice0Neg_append _ ", "
    | cons e' rest' =>
      rw [List.foldl_cons, ih (by simp)]
      show (acc ++ "'" ++ jsToString e ++ "', ") ++
          quotedCommaJoinSpec (jsToString e' :: rest'.map jsToString)
        = acc ++ ("'" ++ jsToString e ++ "', " ++
          quotedCommaJoinSpec (jsToString e' :: rest'.map jsToString))
      simp [String.append_assoc]

theorem spaceJoined_fold (es : List String) (hne : es ≠ []) :
    ∀ acc : String,
    jsSlice0Neg (es.foldl (fun m e => m ++ e ++ " ") acc) 1
      = acc ++ spaceJoinedSpec es := by
  induction es with
  | nil => exact absurd rfl hne
  | cons e rest ih =>
    intro acc
    cases rest with
    | nil =>
      show jsSlice0Neg (acc ++ e ++ " ") 1 = acc ++ e
      have h1 : acc ++ e ++ " " = (acc ++ e) ++ " " := rfl
      rw [h1]
      exact jsSlice0Neg_append _ " "
    | cons e' rest' =>
      rw [List.foldl_cons, ih (by simp)]
      show (acc ++ e ++ " ") ++ spaceJoinedSpec (e' :: rest')
        = acc ++ (e ++ " " ++ spaceJoinedSpec (e' :: rest'))
      simp [String.append_assoc]

/-- The text of the logical-OR group error for a list of (coerced) names. -/
def orGroupMessage (names : List String) : String :=
  "One of the following parameters must be included: " ++
    quotedCommaJoinSpec names ++ "."

theorem performLogicalOr_extracted_lookup (p : ParameterValidator) (pv : JSValue)
    (elems : List JSValue) (k : String) :
    objLookup (p.performLogicalOrParamValidation pv elems).2 k
      = if k ∈ elems.map jsToString ∧
            jsTruthy (p.defaultValidation (getProp pv k)) = true
        then some (getProp pv k) else none := by
  exact condInsertFold_lookup jsToString
    (fun key => jsTruthy (p.defaultValidation (getProp pv key)))
    (fun key => getProp pv key) elems [] k

theorem performLogicalOr_extracted_values (p : ParameterValidator) (pv : JSValue)
    (elems : List JSValue) :
    ∀ kv ∈ (p.performLogicalOrParamValidation pv elems).2,
      kv.2 = getProp pv kv.1 := by
  exact condInsertFold_values jsToString
    (fun key => jsTruthy (p.defaultValidation (getProp pv key)))
    (fun key => getProp pv key) elems [] (by simp)

theorem performLogicalOr_def (p : ParameterValidator) (pv : JSValue)
    (elems : List JSValue) :
    p.performLogicalOrParamValidation pv elems
      = (if (p.performLogicalOrParamValidation pv elems).2.isEmpty
          then [jsSlice0Neg (elems.foldl (fun m e => m ++ "'" ++ jsToString e ++ "', ")
            "One of the following parameters must be included: ") 2 ++ "."]
          else [],
         (p.performLogicalOrParamValidation pv elems).2) := rfl

theorem performLogicalOr_allFail (p : ParameterValidator) (pv : JSValue)
    (elems : List JSValue) (hne : elems ≠ [])
    (hall : ∀ e ∈ elems,
      jsTruthy (p.defaultValidation (getProp pv (jsToString e))) = false) :
    p.performLogicalOrParamValidation pv elems
      = ([orGroupMessage (elems.map jsToString)], []) := by
  have h2 : (p.performLogicalOrParamValidation pv elems).2 = [] :=
    condInsertFold_of_allFalse jsToString
      (fun key => jsTruthy (p.defaultValidation (getProp pv key)))
      (fun key => getProp pv key) elems [] hall
  rw [performLogicalOr_def p pv elems, h2,
    quotedCommaJoin_fold elems hne "One of the following parameters must be included: "]
  rfl

theorem performLogicalOr_errors_of_satisfier (p : ParameterValidator) (pv : JSValue)
    (elems : List JSValue) (e0 : JSValue) (he : e0 ∈ elems)
    (hc : jsTruthy (p.defaultValidation (getProp pv (jsToString e0))) = true) :
    (p.performLogicalOrParamValidation pv elems).1 = [] := by
  have hlook := performLogicalOr_extracted_lookup p pv elems (jsToString e0)
  rw [if_pos ⟨List.mem_map_of_mem jsToString he, hc⟩] at hlook
  have h2ne : (p.performLogicalOrParamValidation pv elems).2.isEmpty = false := by
    rcases hempty : (p.performLogicalOrParamValidation pv elems).2 with _ | ⟨kv, rest⟩
    · rw [hempty] at hlook
      simp [objLookup] at hlook
    · rfl
  conv_lhs => rw [performLogicalOr_def p pv elems]
  rw [h2ne]
  rfl

theorem lookup_assignProperties (params : List (String × JSValue)) (g : String → JSValue)
    (hg : ∀ kv ∈ params, kv.2 = g kv.1) (acc : List (String × JSValue))
    (pfx : String) (k : String) :
    objLookup (assignProperties acc params pfx) k
      = if k ∈ params.map (fun kv => pfx ++ kv.1)
        then some (g (strDropPfx pfx.length k)) else objLookup acc k := by
  induction params generalizing acc with
  | nil => simp [assignProperties]
  | cons kv0 rest ih =>
    obtain ⟨n, v⟩ := kv0
    have hv : v = g n := hg (n, v) (by simp)
    rw [show assignProperties acc ((n, v) :: rest) pfx
        = assignProperties (objInsert acc (pfx ++ n) v) rest pfx from rfl]
    rw [ih (fun kv h => hg kv (List.mem_cons_of_mem _ h)) _]
    by_cases hmem : k ∈ rest.map (fun kv => pfx ++ kv.1)
    · rw [if_pos hmem, if_pos (by rw [List.map_cons, List.mem_cons]; exact Or.inr hmem)]
    · rw [if_neg hmem, objLookup_objInsert]
      by_cases hk : pfx ++ n = k
      · subst hk
        rw [if_pos rfl, if_pos (by rw [List.map_cons, List.mem_cons]; exact Or.inl rfl),
          strDropPfx_append, hv]
      · have hnc : ¬(k ∈ ((n, v) :: rest).map (fun kv => pfx ++ kv.1)) := by
          rw [List.map_cons, List.mem_cons]
          intro hcons
          rcases hcons with h | h
          · exact hk h.symm
          · exact hmem h
        rw [if_neg hk, if_neg hnc]

theorem mem_map_keys_iff (A : List (String × JSValue)) (B : List String)
    (pfx : String) (k : String)
    (h : ∀ key, key ∈ A.map (fun kv => kv.1) ↔ key ∈ B) :
    k ∈ A.map (fun kv => pfx ++ kv.1) ↔ k ∈ B.map (fun n => pfx ++ n) := by
  rw [show A.map (fun kv => pfx ++ kv.1)
      = (A.map (fun kv => kv.1)).map (fun n => pfx ++ n) by rw [List.map_map]; rfl]
  constructor
  · intro hm
    obtain ⟨key, hk1, hk2⟩ := List.mem_map.mp hm
    exact List.mem_map.mpr ⟨key, (h key).mp hk1, hk2⟩
  · intro hm
    obtain ⟨key, hk1, hk2⟩ := List.mem_map.mp hm
    exact List.mem_map.mpr ⟨key, (h key).mpr hk1, hk2⟩

theorem performLogicalOr_keys (p : ParameterValidator) (pv : JSValue)
    (elems : List JSValue)
    (hcond : ∀ e ∈ elems,
      jsTruthy (p.defaultValidation (getProp pv (jsToString e))) = true) :
    ∀ key, key ∈ (p.performLogicalOrParamValidation pv elems).2.map (fun kv => kv.1)
      ↔ key ∈ elems.map jsToString := by
  intro key
  have hlook := performLogicalOr_extracted_lookup p pv elems key
  constructor
  · intro hk
    have hne : objLookup (p.performLogicalOrParamValidation pv elems).2 key ≠ none :=
      fun hnone => ((objLookup_eq_none_iff _ _).mp hnone) hk
    by_cases hcnd : key ∈ elems.map jsToString ∧
        jsTruthy (p.defaultValidation (getProp pv key)) = true
    · exact hcnd.1
    · rw [if_neg hcnd] at hlook
      exact absurd hlook hne
  · intro hk
    obtain ⟨e, he, hke⟩ := List.mem_map.mp hk
    have hc := hcond e he
    rw [hke] at hc
    rw [if_pos ⟨hk, hc⟩] at hlook
    by_contra hnk
    rw [(objLookup_eq_none_iff _ _).mpr hnk] at hlook
    exact nomatch hlook

theorem runEntries_allValid (pv : JSValue) (pfx : String)
    (entries : List (String × RuleVal)) :
    (∀ ent ∈ entries, ∃ f, ent.2 = RuleVal.func f ∧
        (f (getProp pv ent.1)).isTrue = true) →
    ∀ errs m, ∃ M, runEntries pv pfx entries (errs, m) = .ok (errs, M) ∧
      ∀ k, objLookup M k
        = if k ∈ entries.map (fun ent => pfx ++ ent.1)
          then some (getProp pv (strDropPfx pfx.length k)) else objLookup m k := by
  induction entries with
  | nil =>
    intro _ errs m
    exact ⟨m, rfl, fun k => by simp⟩
  | cons ent rest ih =>
    intro hv errs m
    obtain ⟨n, vf⟩ := ent
    obtain ⟨f, hf, htrue⟩ := hv (n, vf) (by simp)
    simp only at hf
    subst hf
    have hexec : executeValidationFunction pv n (.func f)
        = .ok ([], [(n, getProp pv n)]) := by
      simp [executeValidationFunction, htrue]
    have hstep : runEntries pv pfx ((n, RuleVal.func f) :: rest) (errs, m)
        = runEntries pv pfx rest (errs, objInsert m (pfx ++ n) (getProp pv n)) := by
      simp [runEntries, hexec, assignProperties]
    obtain ⟨M, hM, hchar⟩ :=
      ih (fun e he => hv e (List.mem_cons_of_mem _ he)) errs
        (objInsert m (pfx ++ n) (getProp pv n))
    refine ⟨M, by rw [hstep]; exact hM, ?_⟩
    intro k
    rw [hchar k, objLookup_objInsert]
    by_cases hmem : k ∈ rest.map (fun ent => pfx ++ ent.1)
    · rw [if_pos hmem, if_pos (by rw [List.map_cons, List.mem_cons]; exact Or.inr hmem)]
    · rw [if_neg hmem]
      by_cases hk : pfx ++ n = k
      · subst hk
        rw [if_pos rfl, if_pos (by rw [List.map_cons, List.mem_cons]; exact Or.inl rfl),
          strDropPfx_append]
      · have hnc : ¬(k ∈ ((n, RuleVal.func f) :: rest).map (fun ent => pfx ++ ent.1)) := by
          rw [List.map_cons, List.mem_cons]
          intro hcons
          rcases hcons with h | h
          · exact hk h.symm
          · exact hmem h
        rw [if_neg hk, if_neg hnc]

theorem processRule_allValid (p : ParameterValidator) (pv : JSValue) (pfx : String)
    (r : Rule) (hr : RuleAllValid p pv r) (errs : List String)
    (m : List (String × JSValue)) :
    ∃ M, processRule p pv pfx (errs, m) r = .ok (errs, M) ∧
      ∀ k, objLookup M k
        = if k ∈ (ruleValidNames r).map (fun n => pfx ++ n)
          then some (getProp pv (strDropPfx pfx.length k)) else objLookup m k := by
  cases r with
  | other v => exact ⟨m, rfl, fun k => by simp [ruleValidNames]⟩
  | strRule s =>
    by_cases hs : s = ""
    · subst hs
      refine ⟨m, by simp [processRule], fun k => by simp [ruleValidNames]⟩
    · have htrue : (p.defaultValidation (getProp pv s)).isTrue = true := hr hs
      have hexec : executeValidationFunction pv s (.func p.defaultValidation)
          = .ok ([], [(s, getProp pv s)]) := by
        simp [executeValidationFunction, htrue]
      refine ⟨objInsert m (pfx ++ s) (getProp pv s), ?_, ?_⟩
      · simp [processRule, hs, hexec, assignProperties]
      · intro k
        rw [objLookup_objInsert]
        by_cases hk : pfx ++ s = k
        · subst hk
          rw [if_pos rfl, if_pos (by simp [ruleValidNames, hs]), strDropPfx_append]
        · rw [if_neg hk, if_neg (by simp [ruleValidNames, hs]; exact fun h => hk h.symm)]
  | objRule entries =>
    obtain ⟨M, hM, hchar⟩ := runEntries_allValid pv pfx entries hr errs m
    refine ⟨M, hM, fun k => ?_⟩
    rw [hchar k]
    have hmapeq : (ruleValidNames (Rule.objRule entries)).map (fun n => pfx ++ n)
        = entries.map (fun ent => pfx ++ ent.1) := by
      show (entries.map (fun ent => ent.1)).map (fun n => pfx ++ n) = _
      rw [List.map_map]
      rfl
    rw [hmapeq]
  | arr elems =>
    rcases helems : elems with _ | ⟨e0, rest0⟩
    · exact ⟨m, by simp [processRule], fun k => by simp [ruleValidNames]⟩
    · rw [← helems]
      have hne : elems ≠ [] := by rw [helems]; exact fun h => nomatch h
      have hcond : ∀ e ∈ elems,
          jsTruthy (p.defaultValidation (getProp pv (jsToString e))) = true := hr
      have herr : (p.performLogicalOrParamValidation pv elems).1 = [] :=
        performLogicalOr_errors_of_satisfier p pv elems e0
          (by rw [helems]; simp)
          (hcond e0 (by rw [helems]; simp))
      have hisEmpty : elems.isEmpty = false := by
        rw [helems]; rfl
      refine ⟨assignProperties m (p.performLogicalOrParamValidation pv elems).2 pfx, ?_, ?_⟩
      · simp [processRule, hisEmpty, herr]
      · intro k
        rw [lookup_assignProperties (p.performLogicalOrParamValidation pv elems).2
          (fun key => getProp pv key)
          (performLogicalOr_extracted_values p pv elems) m pfx k]
        have hkeys : (k ∈ ((p.performLogicalOrParamValidation pv elems).2.map
              (fun kv => pfx ++ kv.1)))
            ↔ (k ∈ (ruleValidNames (Rule.arr elems)).map (fun n => pfx ++ n)) :=
          mem_map_keys_iff _ _ pfx k (performLogicalOr_keys p pv elems hcond)
        by_cases hmem : k ∈ (ruleValidNames (Rule.arr elems)).map (fun n => pfx ++ n)
        · rw [if_pos hmem, if_pos (hkeys.mpr hmem)]
        · rw [if_neg hmem, if_neg (fun h => hmem (hkeys.mp h))]

theorem validNames_cons (r : Rule) (rest : List Rule) :
    validNames (r :: rest) = ruleValidNames r ++ validNames rest := by
  simp [validNames]

theorem runRules_allValid (p : ParameterValidator) (pv : JSValue) (pfx : String)
    (rules : List Rule) :
    (∀ r ∈ rules, RuleAllValid p pv r) →
    ∀ errs m, ∃ M, runRules p pv pfx rules (errs, m) = .ok (errs, M) ∧
      ∀ k, objLookup M k
        = if k ∈ (validNames rules).map (fun n => pfx ++ n)
          then some (getProp pv (strDropPfx pfx.length k)) else objLookup m k := by
  induction rules with
  | nil =>
    intro _ errs m
    exact ⟨m, rfl, fun k => by simp [validNames]⟩
  | cons r rest ih =>
    intro hv errs m
    obtain ⟨M₁, hM₁, hchar₁⟩ := processRule_allValid p pv pfx r (hv r (by simp)) errs m
    obtain ⟨M, hM, hchar⟩ := ih (fun r' h => hv r' (List.mem_cons_of_mem _ h)) errs M₁
    refine ⟨M, ?_, ?_⟩
    · show (match processRule p pv pfx (errs, m) r with
        | .error e => Except.error e
        | .ok st' => runRules p pv pfx rest st') = Except.ok (errs, M)
      rw [hM₁]
      exact hM
    · intro k
      have hsplit : (validNames (r :: rest)).map (fun n => pfx ++ n)
          = (ruleValidNames r).map (fun n => pfx ++ n)
            ++ (validNames rest).map (fun n => pfx ++ n) := by
        rw [validNames_cons, List.map_append]
      rw [hchar k, hchar₁ k, hsplit]
      by_cases hrest : k ∈ (validNames rest).map (fun n => pfx ++ n)
      · rw [if_pos hrest, if_pos (List.mem_append.mpr (Or.inr hrest))]
      · rw [if_neg hrest]
        by_cases hr1 : k ∈ (ruleValidNames r).map (fun n => pfx ++ n)
        · rw [if_pos hr1, if_pos (List.mem_append.mpr (Or.inl hr1))]
        · rw [if_neg hr1, if_neg (fun h => by
            rcases List.mem_append.mp h with h' | h'
            · exact hr1 h'
            · exact hrest h')]

theorem prefixVal_eq (pfx : String) :
    (if jsTruthy (.str pfx) then JSValue.str pfx else .str "") = .str pfx := by
  cases pfx with
  | mk d =>
    cases d with
    | nil => rfl
    | cons c cs => rfl

theorem validate_run (p : ParameterValidator) (pv : JSValue)
    (hpv : jsTruthy pv = true) (rules : List Rule) (pfx : String) :
    p.validate pv (.array rules) .undefined { addPrefix := .str pfx }
      = (match runRules p pv pfx rules ([], []) with
         | .error e => .error e
         | .ok (errors, extracted) =>
             if errors.isEmpty then .ok extracted
             else .error (.validationError .parameterValidationError
               (jsSlice0Neg (errors.foldl (fun m e => m ++ e ++ " ") "") 1))) := by
  show (match getExtractedParamsObject JSValue.undefined with
    | .error e => Except.error e
    | .ok _ =>
      match getValidationErrorSubclass { addPrefix := JSValue.str pfx } with
      | .error e => Except.error e
      | .ok cls =>
        if jsTruthy pv = false then
          Except.error (JSError.validationError cls "A params object is required.")
        else
          match ParamRequirementsArg.array rules with
          | .notArray _ =>
              Except.error (JSError.plainError "paramRequirements must be an array.")
          | .array rules' =>
            match (if jsTruthy (Options.addPrefix { addPrefix := JSValue.str pfx })
                then Options.addPrefix { addPrefix := JSValue.str pfx }
                else JSValue.str "") with
            | .str pfx' =>
                (match runRules p pv pfx' rules' ([], []) with
                | .error e => Except.error e
                | .ok (errors, extracted) =>
                    if errors.isEmpty then Except.ok extracted
                    else
                      Except.error (JSError.validationError cls
                        (jsSlice0Neg (errors.foldl (fun m e => m ++ e ++ " ") "") 1)))
            | _ =>
                Except.error
                  (JSError.plainError "addPrefix option must be a string if provided.")) = _
  rw [hpv]
  rw [show (Options.addPrefix { addPrefix := .str pfx }) = .str pfx from rfl]
  rw [prefixVal_eq pfx]
  rfl

/-! ## C1 -/

/-- **C1.** For every providedValues mapping and rule list in which every named
parameter satisfies its applicable predicate, `validate` succeeds and returns a
mapping whose entries are exactly the validated names — each prefixed by
`addPrefix` — bound to their values from `providedValues`, and nothing else. -/
theorem c1_validate_allValid (p : ParameterValidator) (fields : List (String × JSValue))
    (rules : List Rule) (pfx : String)
    (h : ∀ r ∈ rules, RuleAllValid p (.obj fields) r) :
    ∃ m, p.validate (.obj fields) (.array rules) .undefined { addPrefix := .str pfx }
        = .ok m ∧
      ∀ k v, objLookup m k = some v
        ↔ ∃ n, n ∈ validNames rules ∧ k = pfx ++ n ∧ v = getProp (.obj fields) n := by
  obtain ⟨M, hM, hchar⟩ := runRules_allValid p (.obj fields) pfx rules h [] []
  refine ⟨M, ?_, ?_⟩
  · rw [validate_run p (.obj fields) rfl rules pfx, hM]
    rfl
  · intro k v
    rw [hchar k]
    constructor
    · intro hsome
      by_cases hmem : k ∈ (validNames rules).map (fun n => pfx ++ n)
      · rw [if_pos hmem] at hsome
        obtain ⟨n, hn, hkeq⟩ := List.mem_map.mp hmem
        refine ⟨n, hn, hkeq.symm, ?_⟩
        have hdrop : strDropPfx pfx.length k = n := by
          rw [← hkeq]; exact strDropPfx_append pfx n
        rw [hdrop] at hsome
        injection hsome with h'
        exact h'.symm
      · rw [if_neg hmem] at hsome
        simp [objLookup] at hsome
    · rintro ⟨n, hn, rfl, rfl⟩
      rw [if_pos (List.mem_map.mpr ⟨n, hn, rfl⟩), strDropPfx_append]

/-- Witness for C1: the spec's success example (`mouse` provided but not
requested, hence excluded). -/
theorem c1_validate_allValid_witness :
    ∃ m, parameterValidator.validate
        (.obj [("cat", .str "Garfield"), ("dog", .str "Jake"),
          ("squirrel", .str "Rocky"), ("mouse", .str "Jerry")])
        (.array [.strRule "cat", .strRule "dog", .strRule "squirrel"]) .undefined
        { addPrefix := .str "" } = .ok m ∧
      ∀ k v, objLookup m k = some v
        ↔ ∃ n, n ∈ validNames [.strRule "cat", .strRule "dog", .strRule "squirrel"]
            ∧ k = "" ++ n
            ∧ v = getProp (.obj [("cat", .str "Garfield"), ("dog", .str "Jake"),
                ("squirrel", .str "Rocky"), ("mouse", .str "Jerry")]) n :=
  c1_validate_allValid parameterValidator
    [("cat", .str "Garfield"), ("dog", .str "Jake"),
      ("squirrel", .str "Rocky"), ("mouse", .str "Jerry")]
    [.strRule "cat", .strRule "dog", .strRule "squirrel"] ""
    (by
      intro r hr
      simp only [List.mem_cons, List.not_mem_nil, or_false] at hr
      rcases hr with rfl | rfl | rfl <;> (intro h; rfl))

/-! ## C2 -/

theorem str_empty_append (s : String) : "" ++ s = s := by
  cases s
  rfl

theorem exec_func_ok (pv : JSValue) (n : String) (f : JSValue → JSValue) :
    ∃ re, executeValidationFunction pv n (.func f) = .ok re := by
  refine ⟨if (f (getProp pv n)).isTrue = true then ([], [(n, getProp pv n)])
    else (["Invalid value of '" ++ jsToString (getProp pv n) ++
      "' was provided for parameter '" ++ n ++ "'."], []), ?_⟩
  by_cases h : (f (getProp pv n)).isTrue = true <;>
    simp [executeValidationFunction, h]

theorem runEntries_errors (p : ParameterValidator) (pv : JSValue) (pfx : String)
    (entries : List (String × RuleVal)) :
    (∀ ent ∈ entries, ∃ f, ent.2 = RuleVal.func f) →
    ∀ errs m, ∃ M, runEntries pv pfx entries (errs, m)
      = .ok (errs ++ ruleErrors p pv (.objRule entries), M) := by
  induction entries with
  | nil =>
    intro _ errs m
    exact ⟨m, by simp [runEntries, ruleErrors]⟩
  | cons ent rest ih =>
    intro hw errs m
    obtain ⟨n, vf⟩ := ent
    obtain ⟨f, hf⟩ := hw (n, vf) (by simp)
    simp only at hf
    subst hf
    obtain ⟨re, hex⟩ := exec_func_ok pv n f
    obtain ⟨M, hM⟩ := ih (fun e he => hw e (List.mem_cons_of_mem _ he))
      (errs ++ re.1) (assignProperties m re.2 pfx)
    refine ⟨M, ?_⟩
    show (match executeValidationFunction pv n (.func f) with
      | .error e => Except.error e
      | .ok res => runEntries pv pfx rest
          (errs ++ res.1, assignProperties m res.2 pfx)) = _
    rw [hex]
    have hre : ruleErrors p pv (.objRule ((n, RuleVal.func f) :: rest))
        = re.1 ++ ruleErrors p pv (.objRule rest) := by
      simp only [ruleErrors, List.map_cons, List.flatten_cons, hex]
    rw [hre, ← List.append_assoc]
    exact hM

theorem processRule_wf (p : ParameterValidator) (pv : JSValue) (pfx : String)
    (r : Rule) (hw : RuleWellFormed r) (errs : List String)
    (m : List (String × JSValue)) :
    ∃ M, processRule p pv pfx (errs, m) r = .ok (errs ++ ruleErrors p pv r, M) := by
  cases r with
  | other v => exact ⟨m, by simp [processRule, ruleErrors]⟩
  | strRule s =>
    by_cases hs : s = ""
    · subst hs
      exact ⟨m, by simp [processRule, ruleErrors]⟩
    · obtain ⟨re, hex⟩ := exec_func_ok pv s p.defaultValidation
      exact ⟨assignProperties m re.2 pfx, by simp [processRule, hs, hex, ruleErrors]⟩
  | objRule entries => exact runEntries_errors p pv pfx entries hw errs m
  | arr elems =>
    rcases helems : elems with _ | ⟨e0, rest0⟩
    · exact ⟨m, by simp [processRule, ruleErrors]⟩
    · refine ⟨assignProperties m
        (p.performLogicalOrParamValidation pv (e0 :: rest0)).2 pfx, ?_⟩
      simp [processRule, ruleErrors]

theorem allErrors_cons (p : ParameterValidator) (pv : JSValue) (r : Rule)
    (rest : List Rule) :
    allErrors p pv (r :: rest) = ruleErrors p pv r ++ allErrors p pv rest := by
  simp [allErrors]

theorem runRules_wf (p : ParameterValidator) (pv : JSValue) (pfx : String)
    (rules : List Rule) :
    (∀ r ∈ rules, RuleWellFormed r) →
    ∀ errs m, ∃ M, runRules p pv pfx rules (errs, m)
      = .ok (errs ++ allErrors p pv rules, M) := by
  induction rules with
  | nil =>
    intro _ errs m
    exact ⟨m, by simp [runRules, allErrors]⟩
  | cons r rest ih =>
    intro hw errs m
    obtain ⟨M₁, hM₁⟩ := processRule_wf p pv pfx r (hw r (by simp)) errs m
    obtain ⟨M, hM⟩ := ih (fun r' h => hw r' (List.mem_cons_of_mem _ h))
      (errs ++ ruleErrors p pv r) M₁
    refine ⟨M, ?_⟩
    show (match processRule p pv pfx (errs, m) r with
      | .error e => Except.error e
      | .ok st' => runRules p pv pfx rest st') = _
    rw [hM₁, allErrors_cons, ← List.append_assoc]
    exact hM

/-- **C2.** On every input (and well-formed rule list) where at least one rule
fails, `validate` evaluates all rules and raises one aggregate error whose
message joins every individual failure message, in rule order, with single
spaces and no trailing separator. -/
theorem c2_validate_aggregateError (p : ParameterValidator) (pv : JSValue)
    (hpv : jsTruthy pv = true) (rules : List Rule) (pfx : String)
    (hw : ∀ r ∈ rules, RuleWellFormed r)
    (hne : allErrors p pv rules ≠ []) :
    p.validate pv (.array rules) .undefined { addPrefix := .str pfx }
      = .error (.validationError .parameterValidationError
          (spaceJoinedSpec (allErrors p pv rules))) := by
  obtain ⟨M, hM⟩ := runRules_wf p pv pfx rules hw [] []
  rw [validate_run p pv hpv rules pfx, hM, List.nil_append]
  have hie : (allErrors p pv rules).isEmpty = false := by
    rcases h : allErrors p pv rules with _ | ⟨e, es⟩
    · exact absurd h hne
    · rfl
  show (if (allErrors p pv rules).isEmpty then Except.ok M
    else Except.error (JSError.validationError ErrClass.parameterValidationError
      (jsSlice0Neg ((allErrors p pv rules).foldl (fun m e => m ++ e ++ " ") "") 1))) = _
  rw [hie, spaceJoined_fold (allErrors p pv rules) hne "",
    str_empty_append]
  rfl

/-- Witness for C2: two required parameters missing, both failure messages
aggregated in rule order. -/
theorem c2_validate_aggregateError_witness :
    parameterValidator.validate (.obj [("cat", .str "Garfield"), ("dog", .str "Jake")])
        (.array [.strRule "cat", .strRule "dog", .strRule "squirrel", .strRule "kangaroo"])
        .undefined { addPrefix := .str "" }
      = .error (.validationError .parameterValidationError
          (spaceJoinedSpec (allErrors parameterValidator
            (.obj [("cat", .str "Garfield"), ("dog", .str "Jake")])
            [.strRule "cat", .strRule "dog", .strRule "squirrel", .strRule "kangaroo"]))) :=
  c2_validate_aggregateError parameterValidator
    (.obj [("cat", .str "Garfield"), ("dog", .str "Jake")]) rfl
    [.strRule "cat", .strRule "dog", .strRule "squirrel", .strRule "kangaroo"] ""
    (by
      intro r hr
      simp only [List.mem_cons, List.not_mem_nil, or_false] at hr
      rcases hr with rfl | rfl | rfl | rfl <;> trivial)
    (by decide)

/-! ## C3 -/

/-- **C3.** For a logical-OR group: if at least one named parameter satisfies
the default predicate, the rule produces no error and extracts exactly the
satisfying names with their values; if none does, it extracts nothing and
produces exactly the group error listing all names, comma-separated and
single-quoted, in original order. -/
theorem c3_logicalOrGroup (p : ParameterValidator) (pv : JSValue)
    (elems : List JSValue) (hne : elems ≠ []) :
    ((∃ e ∈ elems,
        jsTruthy (p.defaultValidation (getProp pv (jsToString e))) = true) →
      (p.performLogicalOrParamValidation pv elems).1 = [] ∧
      ∀ k v, objLookup (p.performLogicalOrParamValidation pv elems).2 k = some v
        ↔ (k ∈ elems.map jsToString ∧
           jsTruthy (p.defaultValidation (getProp pv k)) = true ∧
           v = getProp pv k)) ∧
    ((∀ e ∈ elems,
        jsTruthy (p.defaultValidation (getProp pv (jsToString e))) = false) →
      p.performLogicalOrParamValidation pv elems
        = ([orGroupMessage (elems.map jsToString)], [])) := by
  constructor
  · rintro ⟨e0, he0, hc0⟩
    refine ⟨performLogicalOr_errors_of_satisfier p pv elems e0 he0 hc0, ?_⟩
    intro k v
    rw [performLogicalOr_extracted_lookup p pv elems k]
    constructor
    · intro hsome
      by_cases hcnd : k ∈ elems.map jsToString ∧
          jsTruthy (p.defaultValidation (getProp pv k)) = true
      · rw [if_pos hcnd] at hsome
        injection hsome with h'
        exact ⟨hcnd.1, hcnd.2, h'.symm⟩
      · rw [if_neg hcnd] at hsome
        exact nomatch hsome
    · rintro ⟨hmem, hc, rfl⟩
      rw [if_pos ⟨hmem, hc⟩]
  · intro hall
    exact performLogicalOr_allFail p pv elems hne hall

/-- Witness for C3: the spec's failing OR-group example. -/
theorem c3_logicalOrGroup_witness :
    parameterValidator.performLogicalOrParamValidation
        (.obj [("cat", .str "Garfield"), ("dog", .str "Jake")])
        [.str "moose", .str "kangaroo", .str "mouse"]
      = ([orGroupMessage ["moose", "kangaroo", "mouse"]], []) :=
  (c3_logicalOrGroup parameterValidator
      (.obj [("cat", .str "Garfield"), ("dog", .str "Jake")])
      [.str "moose", .str "kangaroo", .str "mouse"]
      (fun h => nomatch h)).2
    (by
      intro e he
      simp only [List.mem_cons, List.not_mem_nil, or_false] at he
      rcases he with rfl | rfl | rfl <;> rfl)

/-! ## C4 -/

theorem validate_run_default (p : ParameterValidator) (pv : JSValue)
    (hpv : jsTruthy pv = true) (rules : List Rule) :
    p.validate pv (.array rules) .undefined {}
      = (match runRules p pv "" rules ([], []) with
         | .error e => .error e
         | .ok (errors, extracted) =>
             if errors.isEmpty then .ok extracted
             else .error (.validationError .parameterValidationError
               (jsSlice0Neg (errors.foldl (fun m e => m ++ e ++ " ") "") 1))) := by
  show (match getExtractedParamsObject JSValue.undefined with
    | .error e => Except.error e
    | .ok _ =>
      match getValidationErrorSubclass {} with
      | .error e => Except.error e
      | .ok cls =>
        if jsTruthy pv = false then
          Except.error (JSError.validationError cls "A params object is required.")
        else
          match ParamRequirementsArg.array rules with
          | .notArray _ =>
              Except.error (JSError.plainError "paramRequirements must be an array.")
          | .array rules' =>
            match (if jsTruthy (Options.addPrefix {})
                then Options.addPrefix {} else JSValue.str "") with
            | .str pfx' =>
                (match runRules p pv pfx' rules' ([], []) with
                | .error e => Except.error e
                | .ok (errors, extracted) =>
                    if errors.isEmpty then Except.ok extracted
                    else
                      Except.error (JSError.validationError cls
                        (jsSlice0Neg (errors.foldl (fun m e => m ++ e ++ " ") "") 1)))
            | _ =>
                Except.error
                  (JSError.plainError "addPrefix option must be a string if provided.")) = _
  rw [hpv]
  rfl

theorem singleError_message (msg : String) :
    jsSlice0Neg (List.foldl (fun m e => m ++ e ++ " ") "" [msg]) 1 = msg := by
  have h := spaceJoined_fold [msg] (fun h => nomatch h) ""
  rw [h, str_empty_append]
  rfl

theorem validate_singleCustomPredicate (p : ParameterValidator) (pv : JSValue)
    (hpv : jsTruthy pv = true) (name : String) (f : JSValue → JSValue) :
    p.validate pv (.array [.objRule [(name, .func f)]]) .undefined {}
      = if (f (getProp pv name)).isTrue = true
        then .ok [(name, getProp pv name)]
        else .error (.validationError .parameterValidationError
          ("Invalid value of '" ++ jsToString (getProp pv name) ++
            "' was provided for parameter '" ++ name ++ "'.")) := by
  rw [validate_run_default p pv hpv [.objRule [(name, .func f)]]]
  by_cases h : (f (getProp pv name)).isTrue = true
  · have hexec : executeValidationFunction pv name (.func f)
        = .ok ([], [(name, getProp pv name)]) := by
      simp [executeValidationFunction, h]
    rw [if_pos h]
    have hrun : runRules p pv "" [.objRule [(name, .func f)]] ([], [])
        = .ok ([], [(name, getProp pv name)]) := by
      show (match processRule p pv "" ([], []) (.objRule [(name, .func f)]) with
        | .error e => Except.error e
        | .ok st' => runRules p pv "" [] st') = _
      show (match runEntries pv "" [(name, .func f)] ([], []) with
        | .error e => Except.error e
        | .ok st' => runRules p pv "" [] st') = _
      show (match (match executeValidationFunction pv name (.func f) with
        | .error e => Except.error e
        | .ok res => runEntries pv "" []
            ([] ++ res.1, assignProperties [] res.2 "")) with
        | .error e => Except.error e
        | .ok st' => runRules p pv "" [] st') = _
      rw [hexec]
      show Except.ok ([] ++ ([] : List String),
          assignProperties [] [(name, getProp pv name)] "") = _
      simp [assignProperties, objInsert, str_empty_append]
    rw [hrun]
    rfl
  · have hexec : executeValidationFunction pv name (.func f)
        = .ok (["Invalid value of '" ++ jsToString (getProp pv name) ++
            "' was provided for parameter '" ++ name ++ "'."], []) := by
      simp [executeValidationFunction, h]
    rw [if_neg h]
    have hrun : runRules p pv "" [.objRule [(name, .func f)]] ([], [])
        = .ok (["Invalid value of '" ++ jsToString (getProp pv name) ++
            "' was provided for parameter '" ++ name ++ "'."], []) := by
      show (match (match executeValidationFunction pv name (.func f) with
        | .error e => Except.error e
        | .ok res => runEntries pv "" []
            ([] ++ res.1, assignProperties [] res.2 "")) with
        | .error e => Except.error e
        | .ok st' => runRules p pv "" [] st') = _
      rw [hexec]
      rfl
    rw [hrun]
    show Except.error (JSError.validationError ErrClass.parameterValidationError
        (jsSlice0Neg (List.foldl (fun m e => m ++ e ++ " ") ""
          ["Invalid value of '" ++ jsToString (getProp pv name) ++
            "' was provided for parameter '" ++ name ++ "'."]) 1)) = _
    rw [singleError_message]

/-- **C4.** A custom-predicate rule entry extracts the parameter exactly when
the predicate returns the strict boolean `true`; every other return value
produces the per-parameter invalid-value error with the provided value
stringified by default coercion. -/
theorem c4_customPredicate_strictTrue (p : ParameterValidator)
    (fields : List (String × JSValue)) (name : String) (f : JSValue → JSValue) :
    p.validate (.obj fields) (.array [.objRule [(name, .func f)]]) .undefined {}
      = if (f (getProp (.obj fields) name)).isTrue = true
        then .ok [(name, getProp (.obj fields) name)]
        else .error (.validationError .parameterValidationError
          ("Invalid value of '" ++ jsToString (getProp (.obj fields) name) ++
            "' was provided for parameter '" ++ name ++ "'.")) :=
  validate_singleCustomPredicate p (.obj fields) rfl name f


/-! ## C5 -/

/-- **C5.** With no custom `defaultValidation` configured, the default
predicate returns `true` exactly for non-`undefined` values; in particular a
required-string rule for a parameter bound to `null` or `""` succeeds and
extracts that value. -/
theorem c5_defaultPredicate_nullable :
    (∀ v : JSValue,
      ParameterValidator.defaultValidation {} v = .bool true ↔ v ≠ .undefined) ∧
    (∀ (fields : List (String × JSValue)) (name : String) (v : JSValue),
      name ≠ "" → objLookup fields name = some v → (v = .null ∨ v = .str "") →
      ParameterValidator.validate {} (.obj fields) (.array [.strRule name]) .undefined {}
        = .ok [(name, v)]) := by
  constructor
  · intro v
    cases v <;> simp [ParameterValidator.defaultValidation, isDefined]
  · intro fields name v hname hlook hv
    have hgp : getProp (.obj fields) name = v := by simp [getProp, hlook]
    have htrue : ((ParameterValidator.defaultValidation {}) v).isTrue = true := by
      rcases hv with rfl | rfl <;> rfl
    have hexec : executeValidationFunction (.obj fields) name
        (.func (ParameterValidator.defaultValidation {})) = .ok ([], [(name, v)]) := by
      simp [executeValidationFunction, hgp, htrue]
    have hrun : runRules {} (.obj fields) "" [.strRule name] ([], [])
        = .ok ([], [(name, v)]) := by
      show (match (if name = "" then
          Except.ok (([], []) : List String × List (String × JSValue))
        else
          match executeValidationFunction (.obj fields) name
              (.func (ParameterValidator.defaultValidation {})) with
          | .error e => Except.error e
          | .ok res => Except.ok ([] ++ res.1, assignProperties [] res.2 "")) with
        | .error e => Except.error e
        | .ok st' => runRules {} (.obj fields) "" [] st') = _
      rw [if_neg hname, hexec]
      show Except.ok (([] : List String) ++ [],
          assignProperties [] [(name, v)] "") = _
      simp [assignProperties, objInsert, str_empty_append]
    rw [validate_run_default {} (.obj fields) rfl [.strRule name], hrun]
    rfl

/-- Witness for C5: a `null`-valued and an empty-string-valued required
parameter both validate and are extracted. -/
theorem c5_defaultPredicate_nullable_witness :
    (ParameterValidator.defaultValidation {} JSValue.null = .bool true
      ↔ JSValue.null ≠ JSValue.undefined) ∧
    ParameterValidator.validate {} (.obj [("cat", .str "Garfield"), ("dragon", .null)])
        (.array [.strRule "dragon"]) .undefined {} = .ok [("dragon", JSValue.null)] ∧
    ParameterValidator.validate {} (.obj [("dragon", .str "")])
        (.array [.strRule "dragon"]) .undefined {} = .ok [("dragon", JSValue.str "")] :=
  ⟨c5_defaultPredicate_nullable.1 JSValue.null,
   c5_defaultPredicate_nullable.2 [("cat", .str "Garfield"), ("dragon", .null)]
     "dragon" .null (by decide) rfl (Or.inl rfl),
   c5_defaultPredicate_nullable.2 [("dragon", .str "")]
     "dragon" (.str "") (by decide) rfl (Or.inr rfl)⟩

/-! ## C9 -/

/-- **C9.** `validateAsync` never raises synchronously (it totally returns a
`Deferred`): a normal return of `validate` becomes a fulfilled result with the
same value, and a raised error becomes a rejected result carrying the same
error. -/
theorem c9_validateAsync_defers (p : ParameterValidator) (pv : JSValue)
    (reqs : ParamRequirementsArg) (target : JSValue) (opts : Options) :
    (∀ m, p.validate pv reqs target opts = .ok m →
        p.validateAsync pv reqs target opts = .fulfilled m) ∧
    (∀ e, p.validate pv reqs target opts = .error e →
        p.validateAsync pv reqs target opts = .rejected e) := by
  constructor
  · intro m h
    simp only [ParameterValidator.validateAsync, promiseResolveThen]
    rw [h]
  · intro e h
    simp only [ParameterValidator.validateAsync, promiseResolveThen]
    rw [h]

/-- Witness for C9: a succeeding call fulfills, a throwing call rejects with
the same error. -/
theorem c9_validateAsync_defers_witness :
    parameterValidator.validateAsync (.obj [("a", .str "x")])
        (.array [.strRule "a"]) .undefined {} = .fulfilled [("a", .str "x")] ∧
    parameterValidator.validateAsync .undefined (.array []) .undefined {}
      = .rejected (.validationError .parameterValidationError
          "A params object is required.") :=
  ⟨(c9_validateAsync_defers parameterValidator (.obj [("a", .str "x")])
      (.array [.strRule "a"]) .undefined {}).1 [("a", .str "x")] rfl,
   (c9_validateAsync_defers parameterValidator .undefined (.array []) .undefined {}).2
     (.validationError .parameterValidationError "A params object is required.") rfl⟩

/-! ## C10 -/

theorem validate_falsyParams (p : ParameterValidator) (pv : JSValue)
    (hpv : jsTruthy pv = false) (reqs : ParamRequirementsArg) (opts : Options)
    (cls : ErrClass) (hcls : getValidationErrorSubclass opts = .ok cls) :
    p.validate pv reqs .undefined opts
      = .error (.validationError cls "A params object is required.") := by
  unfold ParameterValidator.validate
  rw [hcls, hpv]
  rfl

/-- **C10.** `validate` rejects `providedValues` with the missing-params-object
error exactly when it is falsy (also for `false`, `0`, `NaN`, `""`); any
truthy value — mapping or not — passes the up-front check and validation
proceeds, looking parameters up on it. -/
theorem c10_falsyParams_rejected (pv : JSValue) :
    (jsTruthy pv = false → ∀ rules : List Rule,
      ParameterValidator.validate {} pv (.array rules) .undefined {}
        = .error (.validationError .parameterValidationError
            "A params object is required.")) ∧
    (jsTruthy pv = true → ∀ (name : String) (f : JSValue → JSValue),
      ParameterValidator.validate {} pv (.array [.objRule [(name, .func f)]]) .undefined {}
        = if (f (getProp pv name)).isTrue = true
          then .ok [(name, getProp pv name)]
          else .error (.validationError .parameterValidationError
            ("Invalid value of '" ++ jsToString (getProp pv name) ++
              "' was provided for parameter '" ++ name ++ "'."))) := by
  constructor
  · intro hpv rules
    exact validate_falsyParams {} pv hpv (.array rules) {} .parameterValidationError rfl
  · intro hpv name f
    exact validate_singleCustomPredicate {} pv hpv name f

/-- Witness for C10: `false`, `0`, `NaN` and `""` are all rejected with the
missing-params error; a truthy non-mapping (the number `5`) proceeds to rule
evaluation, looking the parameter up on it. -/
theorem c10_falsyParams_rejected_witness :
    ParameterValidator.validate {} (.bool false) (.array [.strRule "a"]) .undefined {}
      = .error (.validationError .parameterValidationError
          "A params object is required.") ∧
    ParameterValidator.validate {} (.num 0) (.array [.strRule "a"]) .undefined {}
      = .error (.validationError .parameterValidationError
          "A params object is required.") ∧
    ParameterValidator.validate {} .nan (.array [.strRule "a"]) .undefined {}
      = .error (.validationError .parameterValidationError
          "A params object is required.") ∧
    ParameterValidator.validate {} (.str "") (.array [.strRule "a"]) .undefined {}
      = .error (.validationError .parameterValidationError
          "A params object is required.") ∧
    ParameterValidator.validate {} (.num 5)
        (.array [.objRule [("a", .func (fun v => isDefined v))]]) .undefined {}
      = .error (.validationError .parameterValidationError
          "Invalid value of 'undefined' was provided for parameter 'a'.") :=
  ⟨(c10_falsyParams_rejected (.bool false)).1 rfl [.strRule "a"],
   (c10_falsyParams_rejected (.num 0)).1 rfl [.strRule "a"],
   (c10_falsyParams_rejected .nan).1 rfl [.strRule "a"],
   (c10_falsyParams_rejected (.str "")).1 rfl [.strRule "a"],
   (c10_falsyParams_rejected (.num 5)).2 rfl "a" (fun v => isDefined v)⟩

/-! ## Mutation of the output target as a sequence of property writes -/

theorem assignProperties_as_foldl (params m : List (String × JSValue)) (pfx : String) :
    assignProperties m params pfx
      = (params.map (fun kv => (pfx ++ kv.1, kv.2))).foldl
          (fun a kv => objInsert a kv.1 kv.2) m := by
  induction params generalizing m with
  | nil => rfl
  | cons kv rest ih =>
    obtain ⟨n, v⟩ := kv
    show assignProperties (objInsert m (pfx ++ n) v) rest pfx = _
    rw [ih (objInsert m (pfx ++ n) v), List.map_cons, List.foldl_cons]

theorem runEntries_writes (pv : JSValue) (pfx : String)
    (entries : List (String × RuleVal)) :
    ∀ (errs : List String) (m : List (String × JSValue)) st',
      runEntries pv pfx entries (errs, m) = .ok st' →
      ∃ writes : List (String × JSValue),
        st'.2 = writes.foldl (fun a kv => objInsert a kv.1 kv.2) m ∧
        ∀ w ∈ writes, ∃ n, w.1 = pfx ++ n := by
  induction entries with
  | nil =>
    intro errs m st' h
    injection h with h'
    exact ⟨[], by rw [← h']; rfl, by intro w hw; exact absurd hw (List.not_mem_nil w)⟩
  | cons ent rest ih =>
    intro errs m st' h
    obtain ⟨n, vf⟩ := ent
    rcases hex : executeValidationFunction pv n vf with e | res
    · rw [show runEntries pv pfx ((n, vf) :: rest) (errs, m)
          = (match executeValidationFunction pv n vf with
            | .error e => Except.error e
            | .ok res => runEntries pv pfx rest
                (errs ++ res.1, assignProperties m res.2 pfx)) from rfl, hex] at h
      exact nomatch h
    · rw [show runEntries pv pfx ((n, vf) :: rest) (errs, m)
          = (match executeValidationFunction pv n vf with
            | .error e => Except.error e
            | .ok res => runEntries pv pfx rest
                (errs ++ res.1, assignProperties m res.2 pfx)) from rfl, hex] at h
      obtain ⟨w2, hw2, hw2pfx⟩ := ih (errs ++ res.1) (assignProperties m res.2 pfx) st' h
      refine ⟨res.2.map (fun kv => (pfx ++ kv.1, kv.2)) ++ w2, ?_, ?_⟩
      · rw [List.foldl_append, ← assignProperties_as_foldl]
        exact hw2
      · intro w hw
        rcases List.mem_append.mp hw with h' | h'
        · obtain ⟨kv, _, hkv⟩ := List.mem_map.mp h'
          exact ⟨kv.1, by rw [← hkv]⟩
        · exact hw2pfx w h'

theorem processRule_writes (p : ParameterValidator) (pv : JSValue) (pfx : String)
    (r : Rule) (errs : List String) (m : List (String × JSValue)) (st')
    (h : processRule p pv pfx (errs, m) r = .ok st') :
    ∃ writes : List (String × JSValue),
      st'.2 = writes.foldl (fun a kv => objInsert a kv.1 kv.2) m ∧
      ∀ w ∈ writes, ∃ n, w.1 = pfx ++ n := by
  cases r with
  | other v =>
    injection h with h'
    exact ⟨[], by rw [← h']; rfl, by intro w hw; exact absurd hw (List.not_mem_nil w)⟩
  | objRule entries => exact runEntries_writes pv pfx entries errs m st' h
  | strRule s =>
    by_cases hs : s = ""
    · subst hs
      rw [show processRule p pv pfx (errs, m) (.strRule "") = .ok (errs, m) from rfl] at h
      injection h with h'
      exact ⟨[], by rw [← h']; rfl, by intro w hw; exact absurd hw (List.not_mem_nil w)⟩
    · rcases hex : executeValidationFunction pv s (.func p.defaultValidation) with e | res
      · rw [show processRule p pv pfx (errs, m) (.strRule s)
            = (if s = "" then Except.ok (errs, m)
              else match executeValidationFunction pv s (.func p.defaultValidation) with
                | .error e => Except.error e
                | .ok res => Except.ok (errs ++ res.1, assignProperties m res.2 pfx))
            from rfl, if_neg hs, hex] at h
        exact nomatch h
      · rw [show processRule p pv pfx (errs, m) (.strRule s)
            = (if s = "" then Except.ok (errs, m)
              else match executeValidationFunction pv s (.func p.defaultValidation) with
                | .error e => Except.error e
                | .ok res => Except.ok (errs ++ res.1, assignProperties m res.2 pfx))
            from rfl, if_neg hs, hex] at h
        injection h with h'
        refine ⟨res.2.map (fun kv => (pfx ++ kv.1, kv.2)), ?_, ?_⟩
        · rw [← h', ← assignProperties_as_foldl]
        · intro w hw
          obtain ⟨kv, _, hkv⟩ := List.mem_map.mp hw
          exact ⟨kv.1, by rw [← hkv]⟩
  | arr elems =>
    rcases helems : elems with _ | ⟨e0, rest0⟩
    · subst helems
      rw [show processRule p pv pfx (errs, m) (.arr []) = .ok (errs, m) from rfl] at h
      injection h with h'
      exact ⟨[], by rw [← h']; rfl, by intro w hw; exact absurd hw (List.not_mem_nil w)⟩
    · subst helems
      rw [show processRule p pv pfx (errs, m) (.arr (e0 :: rest0))
          = .ok (errs ++ (p.performLogicalOrParamValidation pv (e0 :: rest0)).1,
              assignProperties m (p.performLogicalOrParamValidation pv (e0 :: rest0)).2 pfx)
          from rfl] at h
      injection h with h'
      refine ⟨(p.performLogicalOrParamValidation pv (e0 :: rest0)).2.map
        (fun kv => (pfx ++ kv.1, kv.2)), ?_, ?_⟩
      · rw [← h', ← assignProperties_as_foldl]
      · intro w hw
        obtain ⟨kv, _, hkv⟩ := List.mem_map.mp hw
        exact ⟨kv.1, by rw [← hkv]⟩

theorem runRules_writes (p : ParameterValidator) (pv : JSValue) (pfx : String)
    (rules : List Rule) :
    ∀ (errs : List String) (m : List (String × JSValue)) st',
      runRules p pv pfx rules (errs, m) = .ok st' →
      ∃ writes : List (String × JSValue),
        st'.2 = writes.foldl (fun a kv => objInsert a kv.1 kv.2) m ∧
        ∀ w ∈ writes, ∃ n, w.1 = pfx ++ n := by
  induction rules with
  | nil =>
    intro errs m st' h
    injection h with h'
    exact ⟨[], by rw [← h']; rfl, by intro w hw; exact absurd hw (List.not_mem_nil w)⟩
  | cons r rest ih =>
    intro errs m st' h
    rcases hpr : processRule p pv pfx (errs, m) r with e | st₁
    · rw [show runRules p pv pfx (r :: rest) (errs, m)
          = (match processRule p pv pfx (errs, m) r with
            | .error e => Except.error e
            | .ok st₁ => runRules p pv pfx rest st₁) from rfl, hpr] at h
      exact nomatch h
    · rw [show runRules p pv pfx (r :: rest) (errs, m)
          = (match processRule p pv pfx (errs, m) r with
            | .error e => Except.error e
            | .ok st₁ => runRules p pv pfx rest st₁) from rfl, hpr] at h
      obtain ⟨w1, hw1, hw1pfx⟩ := processRule_writes p pv pfx r errs m st₁ hpr
      obtain ⟨w2, hw2, hw2pfx⟩ := ih st₁.1 st₁.2 st' (by rw [← h])
      refine ⟨w1 ++ w2, ?_, ?_⟩
      · rw [List.foldl_append, ← hw1]
        exact hw2
      · intro w hw
        rcases List.mem_append.mp hw with h' | h'
        · exact hw1pfx w h'
        · exact hw2pfx w h'

theorem keys_objInsert (m : List (String × JSValue)) (k : String) (v : JSValue)
    (k' : String) (h : k' ∈ (objInsert m k v).map (fun kv => kv.1)) :
    k' ∈ m.map (fun kv => kv.1) ∨ k' = k := by
  obtain ⟨kv, hkv, hk⟩ := List.mem_map.mp h
  rcases mem_objInsert m k v kv hkv with h' | h'
  · exact Or.inl (by rw [← hk]; exact List.mem_map_of_mem _ h')
  · right
    rw [← hk, h']

theorem mem_foldl_insert (writes : List (String × JSValue)) :
    ∀ (m : List (String × JSValue)) (kv : String × JSValue),
      kv ∈ writes.foldl (fun a w => objInsert a w.1 w.2) m →
      kv.1 ∈ m.map (fun x => x.1) ∨ ∃ w ∈ writes, w.1 = kv.1 := by
  induction writes with
  | nil =>
    intro m kv h
    exact Or.inl (List.mem_map_of_mem _ h)
  | cons w ws ih =>
    intro m kv h
    rw [List.foldl_cons] at h
    rcases ih (objInsert m w.1 w.2) kv h with h' | h'
    · rcases keys_objInsert m w.1 w.2 kv.1 h' with h'' | h''
      · exact Or.inl h''
      · exact Or.inr ⟨w, by simp, h''.symm⟩
    · obtain ⟨w', hw', he⟩ := h'
      exact Or.inr ⟨w', List.mem_cons_of_mem _ hw', he⟩

theorem lookup_foldl_insert_isSome (writes : List (String × JSValue)) :
    ∀ (m : List (String × JSValue)) (k : String) (v : JSValue),
      objLookup m k = some v →
      ∃ v', objLookup (writes.foldl (fun a w => objInsert a w.1 w.2) m) k = some v' := by
  induction writes with
  | nil =>
    intro m k v h
    exact ⟨v, h⟩
  | cons w ws ih =>
    intro m k v h
    rw [List.foldl_cons]
    by_cases hk : w.1 = k
    · exact ih _ k w.2 (by rw [objLookup_objInsert, if_pos hk])
    · exact ih _ k v (by rw [objLookup_objInsert, if_neg hk]; exact h)

theorem validate_run_general (p : ParameterValidator) (pv : JSValue)
    (hpv : jsTruthy pv = true) (rules : List Rule) (target : JSValue)
    (m₀ : List (String × JSValue))
    (htarget : getExtractedParamsObject target = .ok m₀)
    (opts : Options) (cls : ErrClass)
    (hcls : getValidationErrorSubclass opts = .ok cls)
    (pfx : String)
    (hpfx : (if jsTruthy opts.addPrefix then opts.addPrefix else JSValue.str "")
      = .str pfx) :
    p.validate pv (.array rules) target opts
      = (match runRules p pv pfx rules ([], m₀) with
         | .error e => .error e
         | .ok (errors, extracted) =>
             if errors.isEmpty then .ok extracted
             else .error (.validationError cls
               (jsSlice0Neg (errors.foldl (fun m e => m ++ e ++ " ") "") 1))) := by
  unfold ParameterValidator.validate
  rw [htarget, hcls, hpv, hpfx]
  rfl

theorem validate_badTarget (p : ParameterValidator) (pv : JSValue)
    (reqs : ParamRequirementsArg) (opts : Options) (target : JSValue)
    (h1 : target ≠ .undefined) (h2 : target ≠ .null) (h3 : ∀ g, target ≠ .obj g) :
    p.validate pv reqs target opts
      = .error (.plainError ("Invalid value of '" ++ jsToString target ++
          "' was provided for the extractedParams parameter.")) := by
  cases target with
  | undefined => exact absurd rfl h1
  | null => exact absurd rfl h2
  | obj g => exact absurd rfl (h3 g)
  | bool b => rfl
  | num n => rfl
  | nan => rfl
  | str s => rfl

theorem validate_badPrefixOption (p : ParameterValidator) (pv : JSValue)
    (hpv : jsTruthy pv = true) (rules : List Rule) (ap : JSValue)
    (htr : jsTruthy ap = true) (hnstr : ∀ s, ap ≠ .str s) :
    p.validate pv (.array rules) .undefined { addPrefix := ap }
      = .error (.plainError "addPrefix option must be a string if provided.") := by
  unfold ParameterValidator.validate
  rw [hpv]
  cases ap with
  | str s => exact absurd rfl (hnstr s)
  | undefined => exact nomatch htr
  | null => exact nomatch htr
  | nan => exact nomatch htr
  | bool b =>
    cases b with
    | false => exact nomatch htr
    | true => rfl
  | num n =>
    rw [show Options.addPrefix { addPrefix := JSValue.num n } = JSValue.num n from rfl,
      htr]
    rfl
  | obj g => rfl

/-! ## C6 -/

/-- Counterexample to C6 as stated: `addPrefix: 0` is not a string, yet
`validate` does not fail — `options.addPrefix || ''` coerces every falsy
value to the empty prefix, so validation succeeds. -/
theorem c6_counterexample_falsyPrefixAccepted :
    ParameterValidator.validate {} (.obj [("a", .str "b")])
        (.array [.strRule "a"]) .undefined { addPrefix := .num 0 }
      = .ok [("a", .str "b")] := rfl

/-- **C6** (amended).  `validate` fails with the invalid-prefix usage error
exactly for a *truthy* non-string `addPrefix`; a falsy non-string `addPrefix`
(`0`, `false`, `null`, `NaN`, `""`-like values) is coerced to the empty
prefix and the call behaves as if `addPrefix` were `""`; every string
`addPrefix` is prepended to every extracted parameter's name. -/
theorem c6_amended_addPrefix (p : ParameterValidator)
    (fields : List (String × JSValue)) (rules : List Rule) :
    (∀ ap : JSValue, jsTruthy ap = true → (∀ s, ap ≠ .str s) →
      p.validate (.obj fields) (.array rules) .undefined { addPrefix := ap }
        = .error (.plainError "addPrefix option must be a string if provided.")) ∧
    (∀ ap : JSValue, jsTruthy ap = false →
      p.validate (.obj fields) (.array rules) .undefined { addPrefix := ap }
        = p.validate (.obj fields) (.array rules) .undefined { addPrefix := .str "" }) ∧
    (∀ (s : String) (m : List (String × JSValue)),
      p.validate (.obj fields) (.array rules) .undefined { addPrefix := .str s }
        = .ok m →
      ∀ kv ∈ m, ∃ n, kv.1 = s ++ n) := by
  refine ⟨?_, ?_, ?_⟩
  · intro ap htr hnstr
    exact validate_badPrefixOption p (.obj fields) rfl rules ap htr hnstr
  · intro ap hfalsy
    unfold ParameterValidator.validate
    rw [show Options.addPrefix { addPrefix := ap } = ap from rfl, hfalsy]
    rfl
  · intro s m h
    rw [validate_run p (.obj fields) rfl rules s] at h
    rcases hrun : runRules p (.obj fields) s rules ([], []) with e | st
    · rw [hrun] at h
      exact nomatch h
    · obtain ⟨errors, M⟩ := st
      rw [hrun] at h
      have h2 : (if errors.isEmpty then Except.ok M
          else Except.error (JSError.validationError ErrClass.parameterValidationError
            (jsSlice0Neg (errors.foldl (fun m e => m ++ e ++ " ") "") 1)))
          = Except.ok m := h
      by_cases hie : errors.isEmpty = true
      · rw [if_pos hie] at h2
        injection h2 with h3
        obtain ⟨writes, hw, hwp⟩ := runRules_writes p (.obj fields) s rules [] []
          (errors, M) hrun
        intro kv hkv
        rw [← h3] at hkv
        have hkv' : kv ∈ writes.foldl (fun a w => objInsert a w.1 w.2) [] := by
          rw [← hw]
          exact hkv
        rcases mem_foldl_insert writes [] kv hkv' with h' | h'
        · exact absurd h' (by simp)
        · obtain ⟨w, hwmem, hweq⟩ := h'
          obtain ⟨n, hn⟩ := hwp w hwmem
          exact ⟨n, by rw [← hweq, hn]⟩
      · rw [if_neg hie] at h2
        exact nomatch h2

/-- Witness for C6 (amended): a truthy non-string prefix (`4`) raises the
usage error, a falsy one (`false`) behaves as the empty prefix, and a string
prefix `"_"` prefixes every extracted name. -/
theorem c6_amended_addPrefix_witness :
    ParameterValidator.validate {} (.obj [("penguin", .str "Tux")])
        (.array [.strRule "penguin"]) .undefined { addPrefix := .num 4 }
      = .error (.plainError "addPrefix option must be a string if provided.") ∧
    ParameterValidator.validate {} (.obj [("a", .str "b")])
        (.array [.strRule "a"]) .undefined { addPrefix := .bool false }
      = ParameterValidator.validate {} (.obj [("a", .str "b")])
          (.array [.strRule "a"]) .undefined { addPrefix := .str "" } ∧
    ∀ kv ∈ ([("_penguin", JSValue.str "Tux")] : List (String × JSValue)),
      ∃ n, kv.1 = "_" ++ n :=
  ⟨(c6_amended_addPrefix {} [("penguin", .str "Tux")] [.strRule "penguin"]).1
      (.num 4) rfl (fun _ h => nomatch h),
   (c6_amended_addPrefix {} [("a", .str "b")] [.strRule "a"]).2.1 (.bool false) rfl,
   (c6_amended_addPrefix {} [("penguin", .str "Tux")] [.strRule "penguin"]).2.2
     "_" [("_penguin", .str "Tux")] rfl⟩

/-! ## C7 -/

/-- Counterexample to C7 as stated: the missing-values-object usage error is
thrown with the per-call validation error class — by default the base
`ParameterValidationError` itself — so it is *not* of a different,
non-validation error kind. -/
theorem c7_counterexample_missingParamsIsValidationKind :
    ParameterValidator.validate {} .undefined (.array []) .undefined {}
      = .error (.validationError .parameterValidationError
          "A params object is required.") := rfl

theorem validate_notArrayRules (p : ParameterValidator) (pv : JSValue)
    (hpv : jsTruthy pv = true) (w : JSValue) :
    p.validate pv (.notArray w) .undefined {}
      = .error (.plainError "paramRequirements must be an array.") := by
  unfold ParameterValidator.validate
  rw [hpv]
  rfl

theorem validate_notFuncPredicate (p : ParameterValidator) (pv : JSValue)
    (hpv : jsTruthy pv = true) (n : String) (w : JSValue) :
    p.validate pv (.array [.objRule [(n, .notFunc w)]]) .undefined {}
      = .error (.plainError ("A paramRequirement value provided for the parameter "
          ++ n ++ " is not a function.")) := by
  rw [validate_run_default p pv hpv [.objRule [(n, .notFunc w)]]]
  rfl

theorem validate_badErrorClass (p : ParameterValidator) (pv : JSValue)
    (reqs : ParamRequirementsArg) (w : JSValue) :
    p.validate pv reqs .undefined { errorClass := .invalid w }
      = .error (.plainError ("The errorClass provided was of type " ++ jsTypeof w
          ++ " and was not an Error subclass.")) := rfl

/-- **C7** (amended).  Five of the six listed usage errors — non-sequence rule
list, truthy non-string prefix, non-callable predicate, invalid output-target
type, invalid custom error class — are raised as plain `Error`s, a kind
distinct from the validation error class.  The missing-values-object error
alone is raised *through the validation error class* (by default the base
`ParameterValidationError`), so that one usage error is not distinguishable
from data-validation failures by the error's type. -/
theorem c7_amended_usageErrorKinds (p : ParameterValidator) (pv : JSValue)
    (hpv : jsTruthy pv = true) :
    (∀ w, p.validate pv (.notArray w) .undefined {}
      = .error (.plainError "paramRequirements must be an array.")) ∧
    (∀ ap, jsTruthy ap = true → (∀ s, ap ≠ .str s) → ∀ rules : List Rule,
      p.validate pv (.array rules) .undefined { addPrefix := ap }
        = .error (.plainError "addPrefix option must be a string if provided.")) ∧
    (∀ (n : String) (w : JSValue),
      p.validate pv (.array [.objRule [(n, .notFunc w)]]) .undefined {}
        = .error (.plainError ("A paramRequirement value provided for the parameter "
            ++ n ++ " is not a function."))) ∧
    (∀ (target : JSValue) (reqs : ParamRequirementsArg) (opts : Options),
      target ≠ .undefined → target ≠ .null → (∀ g, target ≠ .obj g) →
      p.validate pv reqs target opts
        = .error (.plainError ("Invalid value of '" ++ jsToString target ++
            "' was provided for the extractedParams parameter."))) ∧
    (∀ (w : JSValue) (reqs : ParamRequirementsArg),
      p.validate pv reqs .undefined { errorClass := .invalid w }
        = .error (.plainError ("The errorClass provided was of type " ++ jsTypeof w
            ++ " and was not an Error subclass."))) ∧
    (∀ v : JSValue, jsTruthy v = false → ∀ reqs : ParamRequirementsArg,
      p.validate v reqs .undefined {}
        = .error (.validationError .parameterValidationError
            "A params object is required.")) := by
  refine ⟨?_, ?_, ?_, ?_, ?_, ?_⟩
  · intro w
    exact validate_notArrayRules p pv hpv w
  · intro ap htr hnstr rules
    exact validate_badPrefixOption p pv hpv rules ap htr hnstr
  · intro n w
    exact validate_notFuncPredicate p pv hpv n w
  · intro target reqs opts h1 h2 h3
    exact validate_badTarget p pv reqs opts target h1 h2 h3
  · intro w reqs
    exact validate_badErrorClass p pv reqs w
  · intro v hv reqs
    exact validate_falsyParams p v hv reqs {} .parameterValidationError rfl

/-- Witness for C7 (amended): each usage-error case at a concrete input. -/
theorem c7_amended_usageErrorKinds_witness :
    ParameterValidator.validate {} (.obj [("a", .str "b")]) (.notArray (.str "x"))
        .undefined {} = .error (.plainError "paramRequirements must be an array.") ∧
    ParameterValidator.validate {} (.obj [("a", .str "b")]) (.array [.strRule "a"])
        .undefined { addPrefix := .num 4 }
      = .error (.plainError "addPrefix option must be a string if provided.") ∧
    ParameterValidator.validate {} (.obj [("a", .str "b")])
        (.array [.objRule [("a", .notFunc (.num 3))]]) .undefined {}
      = .error (.plainError
          "A paramRequirement value provided for the parameter a is not a function.") ∧
    ParameterValidator.validate {} (.obj [("a", .str "b")]) (.array [.strRule "a"])
        (.num 7) {}
      = .error (.plainError
          "Invalid value of '7' was provided for the extractedParams parameter.") ∧
    ParameterValidator.validate {} (.obj [("a", .str "b")]) (.array [.strRule "a"])
        .undefined { errorClass := .invalid (.num 3) }
      = .error (.plainError
          "The errorClass provided was of type number and was not an Error subclass.") ∧
    ParameterValidator.validate {} (.num 0) (.array [.strRule "a"]) .undefined {}
      = .error (.validationError .parameterValidationError
          "A params object is required.") := by
  obtain ⟨h1, h2, h3, h4, h5, h6⟩ :=
    c7_amended_usageErrorKinds {} (.obj [("a", .str "b")]) rfl
  refine ⟨h1 (.str "x"), ?_, ?_, ?_, ?_, h6 (.num 0) rfl (.array [.strRule "a"])⟩
  · exact h2 (.num 4) rfl (fun _ h => nomatch h) [.strRule "a"]
  · exact h3 "a" (.num 3)
  · exact h4 (.num 7) (.array [.strRule "a"]) {} (fun h => nomatch h)
      (fun h => nomatch h) (fun _ h => nomatch h)
  · exact h5 (.num 3) (.array [.strRule "a"])

/-! ## C8 -/

/-- **C8.** Output-target handling: an omitted (`undefined`) or `null` target
behaves as a fresh empty mapping; an existing object target has the validated
entries written into it in place (the returned mapping is the supplied one
updated by the sequence of property writes, so its existing keys survive);
any other target type fails with the invalid-output-target plain error. -/
theorem c8_outputTarget (p : ParameterValidator) (pv : JSValue)
    (reqs : ParamRequirementsArg) (opts : Options) :
    (p.validate pv reqs .undefined opts = p.validate pv reqs .null opts ∧
     p.validate pv reqs .null opts = p.validate pv reqs (.obj []) opts) ∧
    (∀ (_ : jsTruthy pv = true) (rules : List Rule)
       (m₀ : List (String × JSValue)) (cls : ErrClass),
       getValidationErrorSubclass opts = .ok cls →
       ∀ pfx : String,
       (if jsTruthy opts.addPrefix then opts.addPrefix else JSValue.str "")
         = .str pfx →
       ∀ m' : List (String × JSValue),
       p.validate pv (.array rules) (.obj m₀) opts = .ok m' →
       ∃ writes : List (String × JSValue),
         m' = writes.foldl (fun a kv => objInsert a kv.1 kv.2) m₀ ∧
         ∀ k v, objLookup m₀ k = some v → ∃ v', objLookup m' k = some v') ∧
    (∀ target : JSValue, target ≠ .undefined → target ≠ .null →
       (∀ g, target ≠ .obj g) →
       p.validate pv reqs target opts
         = .error (.plainError ("Invalid value of '" ++ jsToString target ++
             "' was provided for the extractedParams parameter."))) := by
  refine ⟨⟨rfl, rfl⟩, ?_, ?_⟩
  · intro hpv rules m₀ cls hcls pfx hpfx m' h
    rw [validate_run_general p pv hpv rules (.obj m₀) m₀ rfl opts cls hcls pfx hpfx] at h
    rcases hrun : runRules p pv pfx rules ([], m₀) with e | st
    · rw [hrun] at h
      exact nomatch h
    · obtain ⟨errors, M⟩ := st
      rw [hrun] at h
      have h2 : (if errors.isEmpty then Except.ok M
          else Except.error (JSError.validationError cls
            (jsSlice0Neg (errors.foldl (fun m e => m ++ e ++ " ") "") 1)))
          = Except.ok m' := h
      by_cases hie : errors.isEmpty = true
      · rw [if_pos hie] at h2
        injection h2 with h3
        obtain ⟨writes, hw, _⟩ := runRules_writes p pv pfx rules [] m₀ (errors, M) hrun
        refine ⟨writes, by rw [← h3]; exact hw, ?_⟩
        intro k v hlook
        obtain ⟨v', hv'⟩ := lookup_foldl_insert_isSome writes m₀ k v hlook
        refine ⟨v', ?_⟩
        rw [← h3]
        show objLookup ((errors, M).2) k = some v'
        rw [hw]
        exact hv'
      · rw [if_neg hie] at h2
        exact nomatch h2
  · intro target h1 h2 h3
    exact validate_badTarget p pv reqs opts target h1 h2 h3

/-- Witness for C8: fresh-target equivalences, in-place merge into an
existing object (the test suite's `{elephant: 'Dumbo'}` accumulator), and a
rejected numeric target. -/
theorem c8_outputTarget_witness :
    (ParameterValidator.validate {} (.obj [("a", .str "b")]) (.array [.strRule "a"])
        .undefined {}
      = ParameterValidator.validate {} (.obj [("a", .str "b")]) (.array [.strRule "a"])
          .null {}) ∧
    (∃ writes : List (String × JSValue),
      [("elephant", JSValue.str "Dumbo"), ("cat", JSValue.str "Garfield")]
        = writes.foldl (fun a kv => objInsert a kv.1 kv.2)
            [("elephant", JSValue.str "Dumbo")] ∧
      ∀ k v, objLookup [("elephant", JSValue.str "Dumbo")] k = some v →
        ∃ v', objLookup [("elephant", JSValue.str "Dumbo"),
          ("cat", JSValue.str "Garfield")] k = some v') ∧
    ParameterValidator.validate {} (.obj [("a", .str "b")]) (.array [.strRule "a"])
        (.num 7) {}
      = .error (.plainError
          "Invalid value of '7' was provided for the extractedParams parameter.") :=
  ⟨(c8_outputTarget {} (.obj [("a", .str "b")]) (.array [.strRule "a"]) {}).1.1,
   (c8_outputTarget {} (.obj [("cat", .str "Garfield")]) (.array [.strRule "cat"]) {}).2.1
     rfl [.strRule "cat"] [("elephant", .str "Dumbo")] .parameterValidationError rfl
     "" rfl [("elephant", .str "Dumbo"), ("cat", .str "Garfield")] rfl,
   (c8_outputTarget {} (.obj [("a", .str "b")]) (.array [.strRule "a"]) {}).2.2
     (.num 7) (fun h => nomatch h) (fun h => nomatch h) (fun _ h => nomatch h)⟩
